import Mathlib

/-!
# Verification of the Tower of Hanoi core (src/main.cpp)

Shallow embedding of the peg/board data structures and the move engine of
the repository `the-tower-of-hanoi`, together with proofs of the spec's
claims about them.

Modelling conventions:
* `HanoiTower` wraps `std::stack<std::uint_fast32_t>`; we model the stack
  as a `List Nat` whose head is the stack top (the list read left to right
  is top-to-base).  Disk values are only compared, never combined
  arithmetically, so `Nat` models `uint_fast32_t` exactly on the inputs
  the program uses.
* `TheTowerOfHanoi` wraps `std::unordered_map<std::string_view, HanoiTower>`;
  we model it as an association list with first-occurrence lookup and
  first-occurrence in-place update, which matches the map's reference
  semantics (keys in the C++ map are unique, so only the first occurrence
  is ever relevant).
* `select` uses `unordered_map::at`, which throws on a missing key; a
  thrown lookup error is modelled by `Option.none` propagating out of
  `move`.  All in-place mutation is modelled by explicit state passing.
-/

namespace Hanoi

/-- Disk sizes (`std::uint_fast32_t` in the source). -/
abbrev Disk := Nat

/-- `HanoiTower` (main.cpp:14-89): a stack of disks.  `m_stack` lists the
disks top first. -/
structure HanoiTower where
  m_stack : List Disk
deriving Repr, DecidableEq

namespace HanoiTower

/-- `top()` (main.cpp:35): the topmost disk; calling it on an empty peg is
undefined behaviour in the source, so the model exposes the guarded
`Option` view. -/
def top? (t : HanoiTower) : Option Disk :=
  t.m_stack.head?

/-- `empty()` (main.cpp:40). -/
def empty (t : HanoiTower) : Bool :=
  t.m_stack.isEmpty

/-- `size()` (main.cpp:45). -/
def size (t : HanoiTower) : Nat :=
  t.m_stack.length

/-- `placeable(element)` (main.cpp:50-53): `empty() || top() > element`.
The short-circuiting `||` evaluates `top()` only on a non-empty stack,
which the match below reflects. -/
def placeable (t : HanoiTower) (element : Disk) : Bool :=
  match t.m_stack with
  | [] => true
  | x :: _ => decide (x > element)

/-- `push(element)` (main.cpp:55-63): pushes iff `placeable`, reporting
success as a `Bool`; the second component is the peg after the call. -/
def push (t : HanoiTower) (element : Disk) : Bool × HanoiTower :=
  if t.placeable element then (true, ⟨element :: t.m_stack⟩) else (false, t)

/-- `pop()` (main.cpp:77-80): removes the top disk.  Its precondition is a
non-empty peg; the program only calls it under that guard. -/
def pop (t : HanoiTower) : HanoiTower :=
  ⟨t.m_stack.tail⟩

/-- The peg size invariant: disks strictly increase from the top toward
the base (the top is the smallest disk on the peg). -/
def stackOrdered : List Disk → Bool
  | [] => true
  | [_] => true
  | a :: b :: rest => decide (a < b) && stackOrdered (b :: rest)

end HanoiTower

/-- Peg names (`std::string_view` keys in the source). -/
abbrev Name := String

/-- First-occurrence lookup in the name-to-peg association list, the model
of `unordered_map` reads. -/
def lookupTower : List (Name × HanoiTower) → Name → Option HanoiTower
  | [], _ => none
  | p :: rest, n => if p.1 = n then some p.2 else lookupTower rest n

/-- First-occurrence in-place update, the model of writing through the
reference returned by `unordered_map::at`. -/
def updateFirst : List (Name × HanoiTower) → Name → HanoiTower → List (Name × HanoiTower)
  | [], _, _ => []
  | p :: rest, n, t => if p.1 = n then (p.1, t) :: rest else p :: updateFirst rest n t

/-- `TheTowerOfHanoi` (main.cpp:111-187): the board, a named collection of
pegs. -/
structure TheTowerOfHanoi where
  m_towerMap : List (Name × HanoiTower)
deriving Repr, DecidableEq

namespace TheTowerOfHanoi

/-- `has(name)` (main.cpp:129-132). -/
def has (b : TheTowerOfHanoi) (name : Name) : Bool :=
  (lookupTower b.m_towerMap name).isSome

/-- `select(name)` (main.cpp:150-158): `unordered_map::at`; `none` models
the `std::out_of_range` throw on a missing name. -/
def select? (b : TheTowerOfHanoi) (name : Name) : Option HanoiTower :=
  lookupTower b.m_towerMap name

/-- `create(name)` (main.cpp:134-138): `insert` of an empty peg; fails
without mutation when the name already exists. -/
def create (b : TheTowerOfHanoi) (name : Name) : TheTowerOfHanoi × Bool :=
  if b.has name then (b, false)
  else (⟨b.m_towerMap ++ [(name, ⟨[]⟩)]⟩, true)

/-- `create(name, onSuccess)` (main.cpp:140-148): inserts, then runs the
initializer on the freshly inserted (empty) peg; the overall `ok` is the
callback's verdict, but the inserted peg stays in the map in whatever
state the callback left it. -/
def createWith (b : TheTowerOfHanoi) (name : Name)
    (onSuccess : HanoiTower → Bool × HanoiTower) : TheTowerOfHanoi × Bool :=
  if b.has name then (b, false)
  else
    let r := onSuccess ⟨[]⟩
    (⟨b.m_towerMap ++ [(name, r.2)]⟩, r.1)

/-- `move(fromName, toName)` (main.cpp:160-181).  `none` models the
uncaught lookup exception from `select` on a missing name; otherwise the
result carries the C++ return value and the board after the call. -/
def move (b : TheTowerOfHanoi) (fromName toName : Name) :
    Option (Bool × TheTowerOfHanoi) :=
  if fromName = toName then
    some (true, b)
  else
    match lookupTower b.m_towerMap fromName, lookupTower b.m_towerMap toName with
    | some fromT, some toT =>
      match fromT.m_stack with
      | [] => some (false, b)
      | d :: _ =>
        let r := toT.push d
        if r.1 then
          some (true,
            ⟨updateFirst (updateFirst b.m_towerMap toName r.2) fromName fromT.pop⟩)
        else
          some (false, b)
    | _, _ => none

/-- All pegs of the board satisfy the size invariant. -/
def pegsOrdered (b : TheTowerOfHanoi) : Bool :=
  b.m_towerMap.all (fun p => HanoiTower.stackOrdered p.2.m_stack)

/-- The multiset of every disk on the board, across all pegs. -/
def allDisks (b : TheTowerOfHanoi) : Multiset Disk :=
  (b.m_towerMap.map (fun p => ((p.2.m_stack : List Disk) : Multiset Disk))).sum

/-- Runs a sequence of `move` calls, keeping the board whether each call
succeeds or fails; `none` as soon as a lookup error escapes. -/
def runMoves (b : TheTowerOfHanoi) : List (Name × Name) → Option TheTowerOfHanoi
  | [] => some b
  | (f, t) :: rest =>
    match b.move f t with
    | some (_, b') => b'.runMoves rest
    | none => none

/-- Runs a sequence of `move` calls, requiring every call to succeed. -/
def runMovesChecked (b : TheTowerOfHanoi) :
    List (Name × Name) → Option TheTowerOfHanoi
  | [] => some b
  | (f, t) :: rest =>
    match b.move f t with
    | some (true, b') => b'.runMovesChecked rest
    | _ => none

end TheTowerOfHanoi

/-- The loop body of `TheTowerOfHanoiGame`'s initializer callback
(main.cpp:264-274): pushes `initial, initial - 1, ..., 1` in order,
reporting failure as soon as a push fails. -/
def pushDown (t : HanoiTower) : Nat → Bool × HanoiTower
  | 0 => (true, t)
  | i + 1 =>
    let r := t.push (i + 1)
    if r.1 then pushDown r.2 i else (false, r.2)

/-- `TheTowerOfHanoiGame::TheTowerOfHanoiGame(initial)` (main.cpp:260-278):
creates peg "a" populated with `initial` disks, then empty pegs "b" and
"c". -/
def gameBoard (initial : Nat) : TheTowerOfHanoi :=
  let r1 := TheTowerOfHanoi.createWith ⟨[]⟩ "a" (fun t => pushDown t initial)
  let r2 := r1.1.create "b"
  let r3 := r2.1.create "c"
  r3.1

/-! ## Association-list lemmas -/

theorem lookupTower_updateFirst_self (m : List (Name × HanoiTower)) (k : Name)
    (v w : HanoiTower) (h : lookupTower m k = some w) :
    lookupTower (updateFirst m k v) k = some v := by
  induction m with
  | nil => simp [lookupTower] at h
  | cons p rest ih =>
    by_cases hp : p.1 = k
    · simp [updateFirst, lookupTower, hp]
    · simp only [updateFirst, lookupTower, hp, if_false, if_neg hp] at h ⊢
      exact ih h

theorem lookupTower_updateFirst_ne (m : List (Name × HanoiTower)) (k k' : Name)
    (v : HanoiTower) (h : k ≠ k') :
    lookupTower (updateFirst m k v) k' = lookupTower m k' := by
  induction m with
  | nil => simp [updateFirst]
  | cons p rest ih =>
    obtain ⟨a, b⟩ := p
    by_cases hp : a = k
    · simp [updateFirst, lookupTower, hp, h]
    · by_cases hp' : a = k'
      · simp [updateFirst, lookupTower, hp, hp', Ne.symm h]
      · simp only [updateFirst, lookupTower, if_neg hp, if_neg hp']
        exact ih

theorem updateFirst_lookup_self (m : List (Name × HanoiTower)) (k : Name)
    (w : HanoiTower) (h : lookupTower m k = some w) :
    updateFirst m k w = m := by
  induction m with
  | nil => rfl
  | cons p rest ih =>
    obtain ⟨a, b⟩ := p
    by_cases hp : a = k
    · simp only [lookupTower, if_pos hp, Option.some.injEq] at h
      simp [updateFirst, hp, h]
    · simp only [lookupTower, if_neg hp] at h
      simp [updateFirst, hp, ih h]

theorem updateFirst_updateFirst (m : List (Name × HanoiTower)) (k : Name)
    (v v' : HanoiTower) :
    updateFirst (updateFirst m k v) k v' = updateFirst m k v' := by
  induction m with
  | nil => rfl
  | cons p rest ih =>
    obtain ⟨a, b⟩ := p
    by_cases hp : a = k
    · simp [updateFirst, hp]
    · simp [updateFirst, hp, ih]

theorem updateFirst_comm (m : List (Name × HanoiTower)) (k k' : Name)
    (v v' : HanoiTower) (h : k ≠ k') :
    updateFirst (updateFirst m k v) k' v' = updateFirst (updateFirst m k' v') k v := by
  induction m with
  | nil => rfl
  | cons p rest ih =>
    obtain ⟨a, b⟩ := p
    by_cases hp : a = k
    · simp [updateFirst, hp, h, Ne.symm h]
    · by_cases hp' : a = k'
      · simp [updateFirst, hp, hp', h, Ne.symm h]
      · simp [updateFirst, hp, hp', ih]

theorem mem_updateFirst (m : List (Name × HanoiTower)) (k : Name)
    (v : HanoiTower) (q : Name × HanoiTower) (hq : q ∈ updateFirst m k v) :
    q ∈ m ∨ q.2 = v := by
  induction m with
  | nil => simp [updateFirst] at hq
  | cons p rest ih =>
    by_cases hp : p.1 = k
    · simp only [updateFirst, if_pos hp, List.mem_cons] at hq
      rcases hq with hq | hq
      · exact Or.inr (by rw [hq])
      · exact Or.inl (List.mem_cons_of_mem _ hq)
    · simp only [updateFirst, if_neg hp, List.mem_cons] at hq
      rcases hq with hq | hq
      · exact Or.inl (hq ▸ List.mem_cons_self _ _)
      · rcases ih hq with h' | h'
        · exact Or.inl (List.mem_cons_of_mem _ h')
        · exact Or.inr h'

/-- The total disk multiset of a raw name-to-peg list. -/
def sumDisks (m : List (Name × HanoiTower)) : Multiset Disk :=
  (m.map (fun p => ((p.2.m_stack : List Disk) : Multiset Disk))).sum

theorem sumDisks_updateFirst (m : List (Name × HanoiTower)) (k : Name)
    (v w : HanoiTower) (h : lookupTower m k = some w) :
    sumDisks (updateFirst m k v) + (w.m_stack : Multiset Disk)
      = sumDisks m + (v.m_stack : Multiset Disk) := by
  induction m with
  | nil => simp [lookupTower] at h
  | cons p rest ih =>
    by_cases hp : p.1 = k
    · simp only [lookupTower, if_pos hp, Option.some.injEq] at h
      simp only [updateFirst, if_pos hp, sumDisks, List.map_cons, List.sum_cons, h]
      abel
    · simp only [lookupTower, if_neg hp] at h
      simp only [updateFirst, if_neg hp, sumDisks, List.map_cons, List.sum_cons]
      have ih' := ih h
      simp only [sumDisks] at ih'
      calc ((p.2.m_stack : Multiset Disk)
              + ((updateFirst rest k v).map
                  (fun p => ((p.2.m_stack : List Disk) : Multiset Disk))).sum)
            + (w.m_stack : Multiset Disk)
          = (p.2.m_stack : Multiset Disk)
              + (((updateFirst rest k v).map
                  (fun p => ((p.2.m_stack : List Disk) : Multiset Disk))).sum
                + (w.m_stack : Multiset Disk)) := by rw [add_assoc]
        _ = (p.2.m_stack : Multiset Disk)
              + ((rest.map (fun p => ((p.2.m_stack : List Disk) : Multiset Disk))).sum
                + (v.m_stack : Multiset Disk)) := by rw [ih']
        _ = ((p.2.m_stack : Multiset Disk)
              + (rest.map (fun p => ((p.2.m_stack : List Disk) : Multiset Disk))).sum)
            + (v.m_stack : Multiset Disk) := by rw [add_assoc]

/-! ## Inversion lemmas for `move` -/

namespace TheTowerOfHanoi

theorem move_success_shape (b b' : TheTowerOfHanoi) (f t : Name) (hft : f ≠ t)
    (h : b.move f t = some (true, b')) :
    ∃ d fs toT, lookupTower b.m_towerMap f = some ⟨d :: fs⟩ ∧
      lookupTower b.m_towerMap t = some toT ∧
      toT.placeable d = true ∧
      b' = ⟨updateFirst (updateFirst b.m_towerMap t ⟨d :: toT.m_stack⟩) f ⟨fs⟩⟩ := by
  rcases hf : lookupTower b.m_towerMap f with _ | fromT
  · simp [move, hft, hf] at h
  rcases ht : lookupTower b.m_towerMap t with _ | toT
  · simp [move, hft, hf, ht] at h
  obtain ⟨stack⟩ := fromT
  rcases stack with _ | ⟨d, fs⟩
  · simp [move, hft, hf, ht] at h
  by_cases hpl : toT.placeable d
  · refine ⟨d, fs, toT, rfl, rfl, hpl, ?_⟩
    simp [move, hft, hf, ht, HanoiTower.push, hpl, HanoiTower.pop] at h
    exact h.symm
  · simp [move, hft, hf, ht, HanoiTower.push, hpl] at h

theorem move_failure_shape (b b' : TheTowerOfHanoi) (f t : Name)
    (h : b.move f t = some (false, b')) : b' = b := by
  by_cases hft : f = t
  · simp [move, hft] at h
  rcases hf : lookupTower b.m_towerMap f with _ | fromT
  · simp [move, hft, hf] at h
  rcases ht : lookupTower b.m_towerMap t with _ | toT
  · simp [move, hft, hf, ht] at h
  obtain ⟨stack⟩ := fromT
  rcases stack with _ | ⟨d, fs⟩
  · simp [move, hft, hf, ht] at h
    exact h.symm
  by_cases hpl : toT.placeable d
  · simp [move, hft, hf, ht, HanoiTower.push, hpl] at h
  · simp [move, hft, hf, ht, HanoiTower.push, hpl] at h
    exact h.symm

theorem move_total (b : TheTowerOfHanoi) (f t : Name)
    (hf : b.has f = true) (ht : b.has t = true) :
    ∃ ok b', b.move f t = some (ok, b') := by
  by_cases hft : f = t
  · exact ⟨true, b, by simp [move, hft]⟩
  rcases hfl : lookupTower b.m_towerMap f with _ | fromT
  · simp [has, hfl] at hf
  rcases htl : lookupTower b.m_towerMap t with _ | toT
  · simp [has, htl] at ht
  obtain ⟨stack⟩ := fromT
  rcases stack with _ | ⟨d, fs⟩
  · exact ⟨false, b, by simp [move, hft, hfl, htl]⟩
  by_cases hpl : toT.placeable d
  · refine ⟨true,
      ⟨updateFirst (updateFirst b.m_towerMap t ⟨d :: toT.m_stack⟩) f ⟨fs⟩⟩, ?_⟩
    simp [move, hft, hfl, htl, HanoiTower.push, hpl, HanoiTower.pop]
  · exact ⟨false, b, by simp [move, hft, hfl, htl, HanoiTower.push, hpl]⟩

end TheTowerOfHanoi

/-! ## Further helper lemmas -/

theorem lookupTower_mem (m : List (Name × HanoiTower)) (k : Name)
    (w : HanoiTower) (h : lookupTower m k = some w) : (k, w) ∈ m := by
  induction m with
  | nil => simp [lookupTower] at h
  | cons p rest ih =>
    obtain ⟨a, b⟩ := p
    by_cases hp : a = k
    · simp only [lookupTower, if_pos hp, Option.some.injEq] at h
      rw [← hp, ← h]
      exact List.mem_cons_self _ _
    · simp only [lookupTower, if_neg hp] at h
      exact List.mem_cons_of_mem _ (ih h)

theorem lookupTower_append_single (m : List (Name × HanoiTower)) (k : Name)
    (v : HanoiTower) (h : lookupTower m k = none) :
    lookupTower (m ++ [(k, v)]) k = some v := by
  induction m with
  | nil => simp [lookupTower]
  | cons p rest ih =>
    by_cases hp : p.1 = k
    · simp [lookupTower, hp] at h
    · simp only [List.cons_append, lookupTower, if_neg hp] at h ⊢
      exact ih h

theorem stackOrdered_tail (d : Disk) (l : List Disk)
    (h : HanoiTower.stackOrdered (d :: l) = true) :
    HanoiTower.stackOrdered l = true := by
  cases l with
  | nil => rfl
  | cons x r =>
    simp only [HanoiTower.stackOrdered, Bool.and_eq_true] at h
    exact h.2

theorem stackOrdered_cons_of_placeable (t : HanoiTower) (d : Disk)
    (hpl : t.placeable d = true) (h : HanoiTower.stackOrdered t.m_stack = true) :
    HanoiTower.stackOrdered (d :: t.m_stack) = true := by
  obtain ⟨stack⟩ := t
  cases stack with
  | nil => rfl
  | cons x r =>
    simp only [HanoiTower.placeable, decide_eq_true_eq] at hpl
    simp only [HanoiTower.stackOrdered, Bool.and_eq_true, decide_eq_true_eq] at h ⊢
    exact ⟨hpl, h⟩

theorem placeable_of_stackOrdered_cons (d : Disk) (fs : List Disk)
    (h : HanoiTower.stackOrdered (d :: fs) = true) :
    HanoiTower.placeable ⟨fs⟩ d = true := by
  cases fs with
  | nil => rfl
  | cons x r =>
    simp only [HanoiTower.stackOrdered, Bool.and_eq_true, decide_eq_true_eq] at h
    simp only [HanoiTower.placeable, decide_eq_true_eq]
    exact h.1

/-! ## The claims -/

open TheTowerOfHanoi

/-- C4: `placeable(d)` returns true exactly when the peg is empty or the
top disk is strictly greater than `d`.  In the embedding `placeable` is a
pure function of the peg state (as in the source, where it is a `const`
member reading the stack), so it cannot modify the peg. -/
theorem placeable_spec (tower : HanoiTower) (d : Disk) :
    tower.placeable d = true ↔
      (tower.empty = true ∨ ∃ x, tower.top? = some x ∧ x > d) := by
  obtain ⟨stack⟩ := tower
  cases stack with
  | nil => simp [HanoiTower.placeable, HanoiTower.empty, HanoiTower.top?]
  | cons x r =>
    simp [HanoiTower.placeable, HanoiTower.empty, HanoiTower.top?]

/-- C5: when `placeable(d)` holds, `push(d)` reports success and the peg
becomes its prior state with `d` as the new top (size one larger, top
`d`); otherwise `push(d)` reports failure and the peg is unchanged.  The
embedding is a total function, reflecting that `push` never throws on a
failed placement. -/
theorem push_spec (tower : HanoiTower) (d : Disk) :
    (tower.placeable d = true →
      tower.push d = (true, ⟨d :: tower.m_stack⟩) ∧
        (tower.push d).2.size = tower.size + 1 ∧
        (tower.push d).2.top? = some d) ∧
    (tower.placeable d = false → tower.push d = (false, tower)) := by
  constructor
  · intro h
    simp [HanoiTower.push, h, HanoiTower.size, HanoiTower.top?]
  · intro h
    simp [HanoiTower.push, h]

/-- Witness for C5 at concrete pegs: a legal and an illegal push. -/
theorem push_spec_witness :
    (⟨[3]⟩ : HanoiTower).push 1 = (true, ⟨[1, 3]⟩) ∧
      (⟨[3]⟩ : HanoiTower).push 5 = (false, ⟨[3]⟩) :=
  ⟨((push_spec ⟨[3]⟩ 1).1 (by decide)).1, (push_spec ⟨[3]⟩ 5).2 (by decide)⟩

/-- C6: a self-move always succeeds and leaves the whole board (hence
every peg) unchanged. -/
theorem move_self_noop (b : TheTowerOfHanoi) (x : Name) :
    b.move x x = some (true, b) := by
  simp [move]

/-- C10: the `fromName == toName` test comes before any peg lookup, so a
self-move on an absent name still succeeds with no lookup error, whereas
a move between two distinct absent names hits the lookup error (`none`,
modelling the `unordered_map::at` throw). -/
theorem self_move_skips_lookup (b : TheTowerOfHanoi) (x : Name)
    (hx : b.has x = false) :
    b.move x x = some (true, b) ∧
      ∀ y, y ≠ x → b.has y = false → b.move x y = none := by
  refine ⟨by simp [move], ?_⟩
  intro y hxy hy
  have hxl : lookupTower b.m_towerMap x = none := by
    cases hval : lookupTower b.m_towerMap x with
    | none => rfl
    | some w => simp [has, hval] at hx
  simp [move, Ne.symm hxy, hxl]

/-- Witness for C10 at a concrete board with no pegs. -/
theorem self_move_skips_lookup_witness :
    (⟨[]⟩ : TheTowerOfHanoi).move "z" "z" = some (true, ⟨[]⟩) ∧
      (⟨[]⟩ : TheTowerOfHanoi).move "z" "w" = none :=
  ⟨(self_move_skips_lookup ⟨[]⟩ "z" (by decide)).1,
    (self_move_skips_lookup ⟨[]⟩ "z" (by decide)).2 "w" (by decide) (by decide)⟩

/-- C8: on a fresh name, `create(name, onSuccess)` with a callback that
reports failure yields an overall not-ok result, yet the inserted peg
stays in the collection, in exactly the state the callback left it; the
insertion is not rolled back. -/
theorem create_initializer_failure (b : TheTowerOfHanoi) (name : Name)
    (onSuccess : HanoiTower → Bool × HanoiTower)
    (hn : b.has name = false) (hcb : (onSuccess ⟨[]⟩).1 = false) :
    (b.createWith name onSuccess).2 = false ∧
      (b.createWith name onSuccess).1.has name = true ∧
      (b.createWith name onSuccess).1.select? name = some (onSuccess ⟨[]⟩).2 := by
  have hxl : lookupTower b.m_towerMap name = none := by
    cases hval : lookupTower b.m_towerMap name with
    | none => rfl
    | some w => simp [has, hval] at hn
  have hlook := lookupTower_append_single b.m_towerMap name (onSuccess ⟨[]⟩).2 hxl
  refine ⟨?_, ?_, ?_⟩
  · simp [createWith, hn, hcb]
  · simp [createWith, has, hxl, hlook]
  · simp [createWith, select?, has, hxl, hlook]

/-- Witness for C8: a callback that pushes disk 7 and then reports
failure; the peg stays inserted holding 7. -/
theorem create_initializer_failure_witness :
    ((⟨[]⟩ : TheTowerOfHanoi).createWith "a" (fun t => (false, (t.push 7).2))).2 = false ∧
      ((⟨[]⟩ : TheTowerOfHanoi).createWith "a" (fun t => (false, (t.push 7).2))).1.has "a" = true ∧
      ((⟨[]⟩ : TheTowerOfHanoi).createWith "a"
          (fun t => (false, (t.push 7).2))).1.select? "a" = some ⟨[7]⟩ :=
  create_initializer_failure ⟨[]⟩ "a" (fun t => (false, (t.push 7).2))
    (by decide) (by decide)

/-- C9: on the game's 3-disk start (peg "a" holding 3,2,1 bottom-to-top,
"b" and "c" empty), the canonical seven moves all succeed and end with
peg "c" holding the full ordered stack while "a" and "b" are empty. -/
theorem classic_seven_moves :
    runMovesChecked (gameBoard 3)
        [("a", "c"), ("a", "b"), ("c", "b"), ("a", "c"),
          ("b", "a"), ("b", "c"), ("a", "c")]
      = some ⟨[("a", ⟨[]⟩), ("b", ⟨[]⟩), ("c", ⟨[1, 2, 3]⟩)]⟩ := by
  decide

/-- C1: `move` between two distinct existing pegs is atomic — it always
returns a result (no lookup error), and either it succeeds and exactly
the source's top disk moves from source to destination with every other
peg untouched, or it fails and the whole board is exactly its prior
state.  The embedding has no partial-mutation path: each outcome is a
single pure state. -/
theorem move_atomic (b : TheTowerOfHanoi) (f t : Name) (hft : f ≠ t)
    (hf : b.has f = true) (ht : b.has t = true) :
    ∃ ok b', b.move f t = some (ok, b') ∧
      (ok = true →
        ∃ d fs ts, b.select? f = some ⟨d :: fs⟩ ∧ b.select? t = some ⟨ts⟩ ∧
          b'.select? f = some ⟨fs⟩ ∧ b'.select? t = some ⟨d :: ts⟩ ∧
          ∀ z, z ≠ f → z ≠ t → b'.select? z = b.select? z) ∧
      (ok = false → b' = b) := by
  obtain ⟨ok, b', hmove⟩ := move_total b f t hf ht
  refine ⟨ok, b', hmove, ?_, ?_⟩
  · rintro rfl
    obtain ⟨d, fs, toT, hfl, htl, hpl, rfl⟩ := move_success_shape b b' f t hft hmove
    obtain ⟨ts⟩ := toT
    refine ⟨d, fs, ts, hfl, htl, ?_, ?_, ?_⟩
    · show lookupTower (updateFirst _ f ⟨fs⟩) f = some ⟨fs⟩
      apply lookupTower_updateFirst_self
      rw [lookupTower_updateFirst_ne _ t f _ (Ne.symm hft)]
      exact hfl
    · show lookupTower (updateFirst _ f ⟨fs⟩) t = some ⟨d :: ts⟩
      rw [lookupTower_updateFirst_ne _ f t _ hft]
      exact lookupTower_updateFirst_self _ t _ _ htl
    · intro z hzf hzt
      show lookupTower (updateFirst _ f ⟨fs⟩) z = lookupTower b.m_towerMap z
      rw [lookupTower_updateFirst_ne _ f z _ (Ne.symm hzf),
        lookupTower_updateFirst_ne _ t z _ (Ne.symm hzt)]
  · rintro rfl
    exact move_failure_shape b b' f t hmove

/-- Witness for C1 at a concrete board (legal-move case). -/
theorem move_atomic_witness :
    ∃ ok b',
      (⟨[("a", ⟨[1, 3]⟩), ("b", ⟨[2]⟩), ("c", ⟨[]⟩)]⟩ : TheTowerOfHanoi).move "a" "b"
          = some (ok, b') ∧
        (ok = true →
          ∃ d fs ts,
            (⟨[("a", ⟨[1, 3]⟩), ("b", ⟨[2]⟩), ("c", ⟨[]⟩)]⟩ : TheTowerOfHanoi).select? "a"
                = some ⟨d :: fs⟩ ∧
              (⟨[("a", ⟨[1, 3]⟩), ("b", ⟨[2]⟩), ("c", ⟨[]⟩)]⟩ : TheTowerOfHanoi).select? "b"
                = some ⟨ts⟩ ∧
              b'.select? "a" = some ⟨fs⟩ ∧ b'.select? "b" = some ⟨d :: ts⟩ ∧
              ∀ z, z ≠ "a" → z ≠ "b" →
                b'.select? z
                  = (⟨[("a", ⟨[1, 3]⟩), ("b", ⟨[2]⟩), ("c", ⟨[]⟩)]⟩ :
                      TheTowerOfHanoi).select? z) ∧
        (ok = false → b' = ⟨[("a", ⟨[1, 3]⟩), ("b", ⟨[2]⟩), ("c", ⟨[]⟩)]⟩) :=
  move_atomic ⟨[("a", ⟨[1, 3]⟩), ("b", ⟨[2]⟩), ("c", ⟨[]⟩)]⟩ "a" "b"
    (by decide) (by decide) (by decide)

/-- C3: any `move` call that returns (success or failure, so long as the
lookups do not error) leaves the multiset of all disks on the board
unchanged: no disk is created, duplicated, or lost. -/
theorem disks_conserved (b b' : TheTowerOfHanoi) (f t : Name) (ok : Bool)
    (h : b.move f t = some (ok, b')) :
    allDisks b' = allDisks b := by
  by_cases hft : f = t
  · subst hft
    have hself : b.move f f = some (true, b) := by simp [move]
    rw [hself] at h
    simp only [Option.some.injEq, Prod.mk.injEq] at h
    rw [← h.2]
  rcases ok with _ | _
  · rw [move_failure_shape b b' f t h]
  · obtain ⟨d, fs, toT, hfl, htl, hpl, rfl⟩ := move_success_shape b b' f t hft h
    obtain ⟨ts⟩ := toT
    have htl1 : lookupTower (updateFirst b.m_towerMap t ⟨d :: ts⟩) f
        = some ⟨d :: fs⟩ := by
      rw [lookupTower_updateFirst_ne _ t f _ (Ne.symm hft)]
      exact hfl
    have eq1 := sumDisks_updateFirst b.m_towerMap t ⟨d :: ts⟩ ⟨ts⟩ htl
    have eq2 := sumDisks_updateFirst (updateFirst b.m_towerMap t ⟨d :: ts⟩) f
      ⟨fs⟩ ⟨d :: fs⟩ htl1
    show sumDisks (updateFirst (updateFirst b.m_towerMap t ⟨d :: ts⟩) f ⟨fs⟩)
      = sumDisks b.m_towerMap
    have hXY : ((d :: fs : List Disk) : Multiset Disk) + (ts : List Disk)
        = ((d :: ts : List Disk) : Multiset Disk) + (fs : List Disk) := by
      simp only [← Multiset.cons_coe, ← Multiset.singleton_add]
      abel
    have key :
        sumDisks (updateFirst (updateFirst b.m_towerMap t ⟨d :: ts⟩) f ⟨fs⟩)
            + (((d :: fs : List Disk) : Multiset Disk) + (ts : List Disk))
          = sumDisks b.m_towerMap
            + (((d :: fs : List Disk) : Multiset Disk) + (ts : List Disk)) := by
      calc sumDisks (updateFirst (updateFirst b.m_towerMap t ⟨d :: ts⟩) f ⟨fs⟩)
              + (((d :: fs : List Disk) : Multiset Disk) + (ts : List Disk))
          = (sumDisks (updateFirst (updateFirst b.m_towerMap t ⟨d :: ts⟩) f ⟨fs⟩)
              + ((d :: fs : List Disk) : Multiset Disk)) + ((ts : List Disk) : Multiset Disk) := by
            rw [add_assoc]
        _ = (sumDisks (updateFirst b.m_towerMap t ⟨d :: ts⟩)
              + ((fs : List Disk) : Multiset Disk)) + ((ts : List Disk) : Multiset Disk) := by
            rw [eq2]
        _ = (sumDisks (updateFirst b.m_towerMap t ⟨d :: ts⟩)
              + ((ts : List Disk) : Multiset Disk)) + ((fs : List Disk) : Multiset Disk) := by
            abel
        _ = (sumDisks b.m_towerMap
              + ((d :: ts : List Disk) : Multiset Disk)) + ((fs : List Disk) : Multiset Disk) := by
            rw [eq1]
        _ = sumDisks b.m_towerMap
              + (((d :: ts : List Disk) : Multiset Disk) + ((fs : List Disk) : Multiset Disk)) := by
            rw [add_assoc]
        _ = sumDisks b.m_towerMap
              + (((d :: fs : List Disk) : Multiset Disk) + ((ts : List Disk) : Multiset Disk)) := by
            rw [hXY]
    exact add_right_cancel key

/-- Witness for C3: a concrete successful move conserves the disks. -/
theorem disks_conserved_witness :
    (⟨[("a", ⟨[1]⟩), ("b", ⟨[]⟩)]⟩ : TheTowerOfHanoi).move "a" "b"
        = some (true, ⟨[("a", ⟨[]⟩), ("b", ⟨[1]⟩)]⟩) ∧
      allDisks ⟨[("a", ⟨[]⟩), ("b", ⟨[1]⟩)]⟩
        = allDisks ⟨[("a", ⟨[1]⟩), ("b", ⟨[]⟩)]⟩ :=
  ⟨by decide, disks_conserved _ _ "a" "b" true (by decide)⟩

/-- One `move` call preserves the size invariant on every peg. -/
theorem pegsOrdered_move (b b' : TheTowerOfHanoi) (f t : Name) (ok : Bool)
    (hord : pegsOrdered b = true) (h : b.move f t = some (ok, b')) :
    pegsOrdered b' = true := by
  by_cases hft : f = t
  · subst hft
    have hself : b.move f f = some (true, b) := by simp [move]
    rw [hself] at h
    simp only [Option.some.injEq, Prod.mk.injEq] at h
    rw [← h.2]
    exact hord
  rcases ok with _ | _
  · rw [move_failure_shape b b' f t h]
    exact hord
  · obtain ⟨d, fs, toT, hfl, htl, hpl, rfl⟩ := move_success_shape b b' f t hft h
    simp only [pegsOrdered, List.all_eq_true] at hord ⊢
    intro q hq
    rcases mem_updateFirst _ f ⟨fs⟩ q hq with hq1 | hq1
    · rcases mem_updateFirst _ t ⟨d :: toT.m_stack⟩ q hq1 with hq2 | hq2
      · exact hord q hq2
      · rw [hq2]
        exact stackOrdered_cons_of_placeable toT d hpl
          (hord (t, toT) (lookupTower_mem _ t toT htl))
    · rw [hq1]
      exact stackOrdered_tail d fs
        (hord (f, ⟨d :: fs⟩) (lookupTower_mem _ f ⟨d :: fs⟩ hfl))

/-- C2: if every peg of the board initially satisfies the size invariant
(strictly increasing from top to base), then after any finite sequence of
`move` calls — each succeeding or failing, as long as none errors on a
missing name — every peg still satisfies the invariant.  Every
intermediate board in a run is the final board of a prefix of the
sequence, so this covers the state after each call. -/
theorem invariant_preserved (b b' : TheTowerOfHanoi) (moves : List (Name × Name))
    (hord : pegsOrdered b = true) (h : b.runMoves moves = some b') :
    pegsOrdered b' = true := by
  induction moves generalizing b with
  | nil =>
    simp only [runMoves, Option.some.injEq] at h
    rw [← h]
    exact hord
  | cons mv rest ih =>
    obtain ⟨f, t⟩ := mv
    rcases hm : b.move f t with _ | ⟨ok, b1⟩
    · rw [runMoves, hm] at h
      exact absurd h (by simp)
    · rw [runMoves, hm] at h
      exact ih b1 (pegsOrdered_move b b1 f t ok hord hm) h

/-- Witness for C2: the game's 3-disk start, one legal move, one illegal
(rejected) move, and another legal move keep all pegs ordered. -/
theorem invariant_preserved_witness :
    pegsOrdered (gameBoard 3) = true ∧
      runMoves (gameBoard 3) [("a", "b"), ("a", "b"), ("a", "c")]
        = some ⟨[("a", ⟨[3]⟩), ("b", ⟨[1]⟩), ("c", ⟨[2]⟩)]⟩ ∧
      pegsOrdered ⟨[("a", ⟨[3]⟩), ("b", ⟨[1]⟩), ("c", ⟨[2]⟩)]⟩ = true :=
  ⟨by decide, by decide,
    invariant_preserved (gameBoard 3) _ [("a", "b"), ("a", "b"), ("a", "c")]
      (by decide) (by decide)⟩

/-- C7 fails as stated: the claim quantifies over every board state, but
`HanoiTower`'s public constructor accepts an arbitrary stack, and on a
source peg violating the size invariant (top 5 resting on 3) the forward
move succeeds while the reverse move is rejected, so the undo neither
succeeds nor restores the pegs. -/
theorem undo_roundtrip_cex :
    (⟨[("A", ⟨[5, 3]⟩), ("B", ⟨[]⟩)]⟩ : TheTowerOfHanoi).move "A" "B"
        = some (true, ⟨[("A", ⟨[3]⟩), ("B", ⟨[5]⟩)]⟩) ∧
      (⟨[("A", ⟨[3]⟩), ("B", ⟨[5]⟩)]⟩ : TheTowerOfHanoi).move "B" "A"
        = some (false, ⟨[("A", ⟨[3]⟩), ("B", ⟨[5]⟩)]⟩) := by
  decide

/-- C7 (amended with the size invariant on the source peg): if the source
peg `A` is size-ordered and `move(A, B)` succeeds, then `move(B, A)`
succeeds and returns the board to exactly its prior state — both pegs
restored, every other peg untouched throughout. -/
theorem undo_roundtrip (b b' : TheTowerOfHanoi) (A B : Name) (hAB : A ≠ B)
    (tA : HanoiTower) (hA : b.select? A = some tA)
    (hordA : HanoiTower.stackOrdered tA.m_stack = true)
    (h : b.move A B = some (true, b')) :
    b'.move B A = some (true, b) := by
  obtain ⟨d, fs, toT, hfl, htl, hpl, rfl⟩ := move_success_shape b b' A B hAB h
  obtain ⟨ts⟩ := toT
  simp only [select?] at hA
  rw [hfl] at hA
  have htA : tA = ⟨d :: fs⟩ := (Option.some.inj hA).symm
  rw [htA] at hordA
  have hBA : B ≠ A := Ne.symm hAB
  have hlookB : lookupTower
      (updateFirst (updateFirst b.m_towerMap B ⟨d :: ts⟩) A ⟨fs⟩) B
        = some ⟨d :: ts⟩ := by
    rw [lookupTower_updateFirst_ne _ A B _ hAB]
    exact lookupTower_updateFirst_self _ B _ _ htl
  have hlookA : lookupTower
      (updateFirst (updateFirst b.m_towerMap B ⟨d :: ts⟩) A ⟨fs⟩) A
        = some ⟨fs⟩ := by
    apply lookupTower_updateFirst_self
    rw [lookupTower_updateFirst_ne _ B A _ hBA]
    exact hfl
  have hplA : HanoiTower.placeable ⟨fs⟩ d = true :=
    placeable_of_stackOrdered_cons d fs hordA
  have hmap :
      updateFirst (updateFirst
          (updateFirst (updateFirst b.m_towerMap B ⟨d :: ts⟩) A ⟨fs⟩)
          A ⟨d :: fs⟩) B ⟨ts⟩
        = b.m_towerMap := by
    rw [updateFirst_updateFirst,
      updateFirst_comm b.m_towerMap B A ⟨d :: ts⟩ ⟨d :: fs⟩ hBA,
      updateFirst_lookup_self b.m_towerMap A ⟨d :: fs⟩ hfl,
      updateFirst_updateFirst,
      updateFirst_lookup_self b.m_towerMap B ⟨ts⟩ htl]
  simp only [move, if_neg hBA, hlookB, hlookA, HanoiTower.push, if_pos hplA,
    HanoiTower.pop, List.tail_cons, hmap, if_true]

/-- Witness for the amended C7 at a concrete ordered board. -/
theorem undo_roundtrip_witness :
    (⟨[("A", ⟨[2]⟩), ("B", ⟨[1]⟩)]⟩ : TheTowerOfHanoi).move "B" "A"
      = some (true, ⟨[("A", ⟨[1, 2]⟩), ("B", ⟨[]⟩)]⟩) :=
  undo_roundtrip ⟨[("A", ⟨[1, 2]⟩), ("B", ⟨[]⟩)]⟩
    ⟨[("A", ⟨[2]⟩), ("B", ⟨[1]⟩)]⟩ "A" "B" (by decide) ⟨[1, 2]⟩
    (by decide) (by decide) (by decide)

end Hanoi
